import Mathlib

/-!
Verification of the Planner repository's task urgency engine
(src/src/lib/dateUtils.ts) and undo-capable task mutation store
(src/unnamed/part_000, the taskStore module).

Modelling conventions:
* Instants are modelled at minute granularity as `Int` values; the source
  manipulates JS `Date` objects and `differenceInMinutes`, and every property
  checked here is stated at whole-minute resolution, so `differenceInMinutes`
  becomes exact integer subtraction.
* IANA time-zone resolution (`toZonedTime` of date-fns-tz) and the evaluator's
  local calendar (`isToday` of date-fns) are external data: they are carried as
  uninterpreted functions in a `TimeEnv` record rather than re-implemented.
* Urgency scores are `Option ℚ`, with `none` standing for the JS `Infinity`
  returned for completed tasks and tasks without a due instant.
* Store timestamps (ISO-8601 strings in the source) are opaque `Nat` instants;
  task ids (uuidv4 in the source) are drawn from a fresh counter `nextId`,
  which models uuid freshness.
-/

namespace Planner

/-- `type` field of a Task: 'homework' | 'life'. -/
inductive TaskType where
  | homework
  | life
deriving DecidableEq, Repr

/-- `priority` field of a Task: 'low' | 'medium' | 'high' (nullable at use sites). -/
inductive TaskPriority where
  | low
  | medium
  | high
deriving DecidableEq, Repr

/-- The Task record of src/unnamed/part_001 (types.ts): all fields of the
interface, with ISO timestamps as `Nat`, ids as `Nat`, and nullable fields as
`Option`. -/
structure Task where
  id : Nat
  title : String
  type : TaskType
  subject : Option String
  notes : Option String
  createdAt : Nat
  updatedAt : Nat
  dueDate : Option String
  dueTime : Option String
  scheduledDate : Option String
  scheduledTime : Option String
  timeZone : String
  estimatedMinutes : Option Nat
  priority : Option TaskPriority
  pomodoroCount : Nat
  completed : Bool
  completedAt : Option Nat
  order : Int
deriving DecidableEq, Repr

/-- Evaluation environment for the time functions of dateUtils.ts.
`now` is the current instant in minutes; `resolve` is the oracle for
`combineDateAndTime` (a calendar date string, an optional HH:mm string and an
IANA zone name resolved to an absolute instant via the tz database); `dayIndex`
maps an instant to the evaluator-local calendar day used by date-fns `isToday`. -/
structure TimeEnv where
  now : Int
  resolve : String → Option String → String → Int
  dayIndex : Int → Int

/-- combineDateAndTime(date, time, timeZone) of dateUtils.ts: resolution of the
local date/time in the given zone, provided by the environment oracle. -/
def combineDateAndTime (env : TimeEnv) (date : String) (time : Option String)
    (timeZone : String) : Int :=
  env.resolve date time timeZone

/-- differenceInMinutes(a, b) of date-fns, at minute granularity. -/
def differenceInMinutes (a b : Int) : Int := a - b

/-- isPast(d) of date-fns: d is strictly before now. -/
def isPastB (env : TimeEnv) (d : Int) : Bool := decide (d < env.now)

/-- isToday(d) of date-fns: d falls on the evaluator-local current calendar day. -/
def isTodayB (env : TimeEnv) (d : Int) : Bool :=
  decide (env.dayIndex d = env.dayIndex env.now)

/-- getTaskDueDate of dateUtils.ts: none when dueDate is null, else the
resolved due instant in the task's own stored zone. -/
def getTaskDueDate (env : TimeEnv) (t : Task) : Option Int :=
  match t.dueDate with
  | none => none
  | some d => some (combineDateAndTime env d t.dueTime t.timeZone)

/-- getTaskScheduledDate of dateUtils.ts. -/
def getTaskScheduledDate (env : TimeEnv) (t : Task) : Option Int :=
  match t.scheduledDate with
  | none => none
  | some d => some (combineDateAndTime env d t.scheduledTime t.timeZone)

/-- getTaskUrgency of dateUtils.ts (lines 69-92), transcribed clause by
clause; `none` is the JS `Infinity`. -/
def getTaskUrgency (env : TimeEnv) (t : Task) : Option ℚ :=
  if t.completed then none
  else
    match getTaskDueDate env t with
    | none => none
    | some dueDate =>
      let minutesUntilDue : Int := differenceInMinutes dueDate env.now
      if minutesUntilDue < 0 then some (minutesUntilDue : ℚ)
      else
        let priorityMultiplier : ℚ :=
          if t.priority = some .high then 1/2
          else if t.priority = some .low then 3/2
          else 1
        let typeMultiplier : ℚ := if t.type = .homework then 9/10 else 11/10
        some ((minutesUntilDue : ℚ) * priorityMultiplier * typeMultiplier)

/-- Priority multiplier table as written in the spec (section 4.2):
0.5 for high, 1.0 for medium or absent, 1.5 for low. -/
def specPriorityMultiplier : Option TaskPriority → ℚ
  | some .high => 1/2
  | some .low => 3/2
  | _ => 1

/-- Kind multiplier table as written in the spec: 0.9 for homework, 1.1 for life. -/
def specKindMultiplier : TaskType → ℚ
  | .homework => 9/10
  | .life => 11/10

/-- The spec's reference urgency definition (section 4.2), written from the
spec sentences: completed or no due instant gives +infinity; overdue tasks
score their (negative) minutes-until-due unmodified; otherwise the score is
minutesUntilDue times the priority multiplier times the kind multiplier. -/
def specUrgencyScore (env : TimeEnv) (t : Task) : Option ℚ :=
  if t.completed then none
  else
    match getTaskDueDate env t with
    | none => none
    | some due =>
      let minutesUntilDue : Int := differenceInMinutes due env.now
      if minutesUntilDue < 0 then some (minutesUntilDue : ℚ)
      else
        some ((minutesUntilDue : ℚ) *
          specPriorityMultiplier t.priority * specKindMultiplier t.type)

/-- The four urgency buckets of groupTasksByUrgency. -/
inductive Bucket where
  | urgent
  | today
  | upcoming
  | someday
deriving DecidableEq, Repr

/-- The first-match-wins if/else chain of the grouping loop in
groupTasksByUrgency (dateUtils.ts lines 107-129): the bucket a single task is
pushed to, or `none` for completed tasks (which the loop skips). -/
def classify (env : TimeEnv) (t : Task) : Option Bucket :=
  if t.completed then none
  else
    let dueDate := getTaskDueDate env t
    let scheduledDate := getTaskScheduledDate env t
    if (match dueDate with
        | some d => isPastB env d || isTodayB env d
        | none => false) then some .urgent
    else if (match scheduledDate with
        | some d => isTodayB env d
        | none => false) then some .today
    else if (match dueDate with
        | some d => decide (differenceInMinutes d env.now < 7 * 24 * 60)
        | none => false) then some .upcoming
    else some .someday

/-- Comparator on urgency scores used to sort the urgent/today/upcoming
buckets: `getTaskUrgency a - getTaskUrgency b` ascending, with `none`
(Infinity) sorting last. -/
def scoreLeB : Option ℚ → Option ℚ → Bool
  | some x, some y => decide (x ≤ y)
  | some _, none => true
  | none, some _ => false
  | none, none => true

/-- Strict version of the score order, for stating ordering properties
("lower score is more urgent"). -/
def scoreLt : Option ℚ → Option ℚ → Prop
  | some x, some y => x < y
  | some _, none => True
  | none, _ => False

instance : DecidablePred fun p : Option ℚ × Option ℚ => scoreLt p.1 p.2 := by
  intro p
  rcases p with ⟨a, b⟩
  rcases a with _ | x <;> rcases b with _ | y <;> simp [scoreLt] <;> infer_instance

instance (a b : Option ℚ) : Decidable (scoreLt a b) := by
  rcases a with _ | x <;> rcases b with _ | y <;> simp [scoreLt] <;> infer_instance

/-- Result record of groupTasksByUrgency. -/
structure TaskGroups where
  urgent : List Task
  today : List Task
  upcoming : List Task
  someday : List Task
deriving DecidableEq, Repr

/-- Projection of a bucket of a grouping result. -/
def TaskGroups.bucket (g : TaskGroups) : Bucket → List Task
  | .urgent => g.urgent
  | .today => g.today
  | .upcoming => g.upcoming
  | .someday => g.someday

/-- groupTasksByUrgency of dateUtils.ts (lines 95-138).  The source loop
pushes each non-completed task to the single bucket selected by the
first-match-wins chain (`classify`) preserving input order, which is the
corresponding filter; each of the first three buckets is then sorted ascending
by urgency score and someday ascending by the manual `order` field.  JS
`Array.prototype.sort` (stable) is modelled by the stable insertion sort. -/
def groupTasksByUrgency (env : TimeEnv) (tasks : List Task) : TaskGroups :=
  let urgent := tasks.filter fun t => decide (classify env t = some .urgent)
  let today := tasks.filter fun t => decide (classify env t = some .today)
  let upcoming := tasks.filter fun t => decide (classify env t = some .upcoming)
  let someday := tasks.filter fun t => decide (classify env t = some .someday)
  let byScore : Task → Task → Prop := fun a b =>
    scoreLeB (getTaskUrgency env a) (getTaskUrgency env b) = true
  { urgent := List.insertionSort byScore urgent
    today := List.insertionSort byScore today
    upcoming := List.insertionSort byScore upcoming
    someday := List.insertionSort (fun a b => a.order ≤ b.order) someday }

/-- The code's urgency score agrees with the spec's reference definition. -/
lemma urgency_eq_spec (env : TimeEnv) (t : Task) :
    getTaskUrgency env t = specUrgencyScore env t := by
  unfold getTaskUrgency specUrgencyScore
  rcases h : t.completed
  · simp only [Bool.false_eq_true, if_false]
    rcases getTaskDueDate env t with _ | due
    · rfl
    · simp only
      split
      · rfl
      · rcases hp : t.priority with _ | p
        · rcases ht : t.type <;> simp [specPriorityMultiplier, specKindMultiplier, hp, ht]
        · rcases p <;> rcases ht : t.type <;>
            simp [specPriorityMultiplier, specKindMultiplier, hp, ht]
  · simp

/-- C1: the urgency score computed by the code agrees with the spec's
reference definition on every task, in every environment. -/
theorem c1_urgency_matches_spec (env : TimeEnv) (t : Task) :
    getTaskUrgency env t = specUrgencyScore env t :=
  urgency_eq_spec env t

/-- Membership in a bucket of the grouping result is membership in the input
together with the first-match-wins classification picking that bucket. -/
lemma mem_bucket_iff (env : TimeEnv) (ts : List Task) (t : Task) (b : Bucket) :
    t ∈ (groupTasksByUrgency env ts).bucket b ↔ t ∈ ts ∧ classify env t = some b := by
  cases b <;>
    simp [groupTasksByUrgency, TaskGroups.bucket,
      (List.perm_insertionSort _ _).mem_iff, List.mem_filter]

/-- A non-completed task is always classified into some bucket. -/
lemma classify_isSome (env : TimeEnv) (t : Task) (hc : t.completed = false) :
    ∃ b, classify env t = some b := by
  unfold classify
  rw [hc]
  simp only [Bool.false_eq_true, if_false]
  split
  · exact ⟨_, rfl⟩
  · split
    · exact ⟨_, rfl⟩
    · split
      · exact ⟨_, rfl⟩
      · exact ⟨_, rfl⟩

/-- The four classification filters partition the non-completed tasks. -/
lemma classify_partition_length (env : TimeEnv) (ts : List Task) :
    (ts.filter fun t => decide (classify env t = some .urgent)).length +
    (ts.filter fun t => decide (classify env t = some .today)).length +
    (ts.filter fun t => decide (classify env t = some .upcoming)).length +
    (ts.filter fun t => decide (classify env t = some .someday)).length =
    (ts.filter fun t => !t.completed).length := by
  induction ts with
  | nil => rfl
  | cons t ts ih =>
    rcases hc : t.completed with hfalse | htrue
    · obtain ⟨b, hb⟩ := classify_isSome env t hc
      cases b <;> simp [List.filter_cons, hb, hc] <;> omega
    · have hnone : classify env t = none := by unfold classify; rw [hc]; rfl
      simp [List.filter_cons, hnone, hc]
      omega

/-- Completed and non-completed filter lengths are complementary. -/
lemma length_filter_not_completed (ts : List Task) :
    (ts.filter fun t => !t.completed).length =
      ts.length - (ts.filter fun t => t.completed).length := by
  induction ts with
  | nil => rfl
  | cons t ts ih =>
    have hle := List.length_filter_le (fun t : Task => t.completed) ts
    rcases hc : t.completed with hfalse | htrue <;> simp [List.filter_cons, hc] <;> omega

/-- C4: groupTasksByUrgency excludes every completed task from all buckets,
places every non-completed input task in exactly one bucket, the bucket sizes
add up to the input count minus the completed count, and a task that is
overdue and also scheduled for today lands in urgent, never in today. -/
theorem c4_classify_partition (env : TimeEnv) (ts : List Task) :
    (∀ t : Task, t.completed = true →
      ∀ b, t ∉ (groupTasksByUrgency env ts).bucket b) ∧
    (∀ t ∈ ts, t.completed = false →
      ∃! b, t ∈ (groupTasksByUrgency env ts).bucket b) ∧
    ((groupTasksByUrgency env ts).urgent.length +
      (groupTasksByUrgency env ts).today.length +
      (groupTasksByUrgency env ts).upcoming.length +
      (groupTasksByUrgency env ts).someday.length =
      ts.length - (ts.filter fun t => t.completed).length) ∧
    (∀ t ∈ ts, t.completed = false →
      ∀ d ∈ getTaskDueDate env t, isPastB env d = true →
      ∀ sd ∈ getTaskScheduledDate env t, isTodayB env sd = true →
      t ∈ (groupTasksByUrgency env ts).urgent ∧
        t ∉ (groupTasksByUrgency env ts).today) := by
  refine ⟨?_, ?_, ?_, ?_⟩
  · intro t hc b hmem
    have := (mem_bucket_iff env ts t b).mp hmem
    have hnone : classify env t = none := by unfold classify; rw [hc]; rfl
    rw [hnone] at this
    exact Option.noConfusion this.2
  · intro t hmem hc
    obtain ⟨b, hb⟩ := classify_isSome env t hc
    refine ⟨b, (mem_bucket_iff env ts t b).mpr ⟨hmem, hb⟩, ?_⟩
    intro b' hb'
    have := ((mem_bucket_iff env ts t b').mp hb').2
    rw [hb] at this
    exact (Option.some_inj.mp this).symm
  · have h1 : (groupTasksByUrgency env ts).urgent.length =
        (ts.filter fun t => decide (classify env t = some .urgent)).length :=
      (List.perm_insertionSort _ _).length_eq
    have h2 : (groupTasksByUrgency env ts).today.length =
        (ts.filter fun t => decide (classify env t = some .today)).length :=
      (List.perm_insertionSort _ _).length_eq
    have h3 : (groupTasksByUrgency env ts).upcoming.length =
        (ts.filter fun t => decide (classify env t = some .upcoming)).length :=
      (List.perm_insertionSort _ _).length_eq
    have h4 : (groupTasksByUrgency env ts).someday.length =
        (ts.filter fun t => decide (classify env t = some .someday)).length :=
      (List.perm_insertionSort _ _).length_eq
    rw [h1, h2, h3, h4, classify_partition_length, length_filter_not_completed]
  · intro t hmem hc d hd hpast sd hsd htoday
    have hurg : classify env t = some .urgent := by
      unfold classify
      rw [hc]
      simp only [Bool.false_eq_true, if_false]
      rw [show (match getTaskDueDate env t with
          | some d => isPastB env d || isTodayB env d
          | none => false) = true by
        rcases hdd : getTaskDueDate env t with _ | d'
        · rw [hdd] at hd; exact absurd hd (by simp)
        · rw [hdd] at hd
          have : d' = d := by simpa using hd
          subst this
          simp [hpast]]
      rfl
    constructor
    · exact (mem_bucket_iff env ts t .urgent).mpr ⟨hmem, hurg⟩
    · intro hmem2
      have := ((mem_bucket_iff env ts t .today).mp hmem2).2
      rw [hurg] at this
      exact Bucket.noConfusion (Option.some_inj.mp this)

/-- C5 (amended): a non-completed task due exactly 7×24×60 minutes from now,
not due today and not scheduled for today, is excluded from upcoming by the
strict < comparison and lands in someday. -/
theorem c5_boundary_in_someday (env : TimeEnv) (t : Task) (ts : List Task)
    (hmem : t ∈ ts) (hc : t.completed = false)
    (hdue : getTaskDueDate env t = some (env.now + 7 * 24 * 60))
    (htoday : isTodayB env (env.now + 7 * 24 * 60) = false)
    (hsched : ∀ sd ∈ getTaskScheduledDate env t, isTodayB env sd = false) :
    t ∈ (groupTasksByUrgency env ts).someday ∧
      t ∉ (groupTasksByUrgency env ts).upcoming := by
  have hsome : classify env t = some .someday := by
    have e : (7 * 24 * 60 : Int) = 10080 := by norm_num
    have h1 : ¬(env.now + 10080 < env.now) := by omega
    have h2 : env.dayIndex (env.now + 10080) ≠ env.dayIndex env.now := by
      have h := htoday
      rw [e] at h
      unfold isTodayB at h
      exact of_decide_eq_false h
    have h3 : ¬(env.now + 10080 - env.now < 10080) := by omega
    unfold classify
    rw [hc]
    simp only [Bool.false_eq_true, if_false]
    rw [hdue]
    rcases hs : getTaskScheduledDate env t with _ | sd
    · simp [isPastB, isTodayB, differenceInMinutes, h1, h2, h3]
    · have hsd := hsched sd (by rw [hs]; exact rfl)
      unfold isTodayB at hsd
      have hsd2 := of_decide_eq_false hsd
      simp [isPastB, isTodayB, differenceInMinutes, h1, h2, h3, hsd2]
  constructor
  · exact (mem_bucket_iff env ts t .someday).mpr ⟨hmem, hsome⟩
  · intro hmem2
    have := ((mem_bucket_iff env ts t .upcoming).mp hmem2).2
    rw [hsome] at this
    exact Bucket.noConfusion (Option.some_inj.mp this)

/-- Concrete environment: now = minute 0, every date resolves to exactly the
7-day boundary, days are 1440-minute blocks. -/
def boundaryEnv : TimeEnv :=
  { now := 0
    resolve := fun _ _ _ => 7 * 24 * 60
    dayIndex := fun i => Int.fdiv i 1440 }

/-- Concrete task due exactly at the 7-day boundary, with no scheduled date. -/
def boundaryTask : Task :=
  { id := 0
    title := "boundary"
    type := .homework
    subject := none
    notes := none
    createdAt := 0
    updatedAt := 0
    dueDate := some "2024-01-08"
    dueTime := none
    scheduledDate := none
    scheduledTime := none
    timeZone := "UTC"
    estimatedMinutes := none
    priority := none
    pomodoroCount := 0
    completed := false
    completedAt := none
    order := 1 }

/-- C5 counterexample: a non-completed task due exactly 7×24×60 minutes after
now, not overdue, not due today and not scheduled for today, is NOT placed in
the upcoming bucket (it lands in someday). -/
theorem c5_counterexample :
    boundaryTask.completed = false ∧
    getTaskDueDate boundaryEnv boundaryTask =
      some (boundaryEnv.now + 7 * 24 * 60) ∧
    isPastB boundaryEnv (boundaryEnv.now + 7 * 24 * 60) = false ∧
    isTodayB boundaryEnv (boundaryEnv.now + 7 * 24 * 60) = false ∧
    getTaskScheduledDate boundaryEnv boundaryTask = none ∧
    boundaryTask ∉ (groupTasksByUrgency boundaryEnv [boundaryTask]).upcoming ∧
    (groupTasksByUrgency boundaryEnv [boundaryTask]).someday = [boundaryTask] := by
  decide

/-- C5 witness: the amended statement applied to the concrete boundary task. -/
theorem c5_boundary_in_someday_witness :
    boundaryTask ∈ (groupTasksByUrgency boundaryEnv [boundaryTask]).someday ∧
      boundaryTask ∉ (groupTasksByUrgency boundaryEnv [boundaryTask]).upcoming :=
  c5_boundary_in_someday boundaryEnv boundaryTask [boundaryTask]
    (by decide) (by decide) (by decide) (by decide) (by decide)

/-- Closed form of the spec urgency score of a non-completed task whose due
instant is not in the past. -/
lemma specUrgency_of_future (env : TimeEnv) (t : Task) (d : Int)
    (hc : t.completed = false) (hdue : getTaskDueDate env t = some d)
    (hge : ¬ d - env.now < 0) :
    specUrgencyScore env t =
      some (((d - env.now : Int) : ℚ) *
        specPriorityMultiplier t.priority * specKindMultiplier t.type) := by
  unfold specUrgencyScore
  rw [hc]
  simp only [Bool.false_eq_true, if_false]
  rw [hdue]
  simp only [differenceInMinutes]
  rw [if_neg hge]

/-- C7 (amended): for two tasks identical except for priority (high vs low),
both non-completed with the same due instant strictly in the future, the
high-priority score is strictly smaller than the low-priority score. -/
theorem c7_priority_orders_future_scores (env : TimeEnv) (t : Task) (d : Int)
    (hc : t.completed = false) (hdue : getTaskDueDate env t = some d)
    (hfut : env.now < d) :
    scoreLt (getTaskUrgency env { t with priority := some .high })
      (getTaskUrgency env { t with priority := some .low }) := by
  have hge : ¬ d - env.now < 0 := by omega
  have eH : getTaskUrgency env { t with priority := some TaskPriority.high } =
      some (((d - env.now : Int) : ℚ) *
        specPriorityMultiplier (some TaskPriority.high) * specKindMultiplier t.type) :=
    (urgency_eq_spec env _).trans
      (specUrgency_of_future env { t with priority := some TaskPriority.high } d hc hdue hge)
  have eL : getTaskUrgency env { t with priority := some TaskPriority.low } =
      some (((d - env.now : Int) : ℚ) *
        specPriorityMultiplier (some TaskPriority.low) * specKindMultiplier t.type) :=
    (urgency_eq_spec env _).trans
      (specUrgency_of_future env { t with priority := some TaskPriority.low } d hc hdue hge)
  rw [eH, eL]
  show ((d - env.now : Int) : ℚ) * specPriorityMultiplier (some TaskPriority.high) *
      specKindMultiplier t.type <
    ((d - env.now : Int) : ℚ) * specPriorityMultiplier (some TaskPriority.low) *
      specKindMultiplier t.type
  have hm : (0 : ℚ) < ((d - env.now : Int) : ℚ) := by
    have h0 : (0 : Int) < d - env.now := by omega
    exact_mod_cast h0
  have hkm : (0 : ℚ) < specKindMultiplier t.type := by
    rcases t.type <;> norm_num [specKindMultiplier]
  have hpm : specPriorityMultiplier (some TaskPriority.high) <
      specPriorityMultiplier (some TaskPriority.low) := by
    norm_num [specPriorityMultiplier]
  nlinarith [mul_pos hm hkm]

/-- Concrete environment in which every date resolves 100 minutes into the
past. -/
def overdueEnv : TimeEnv :=
  { now := 0
    resolve := fun _ _ _ => -100
    dayIndex := fun i => Int.fdiv i 1440 }

/-- Concrete overdue high-priority task. -/
def overdueHigh : Task :=
  { id := 1
    title := "report"
    type := .homework
    subject := none
    notes := none
    createdAt := 0
    updatedAt := 0
    dueDate := some "2024-01-01"
    dueTime := none
    scheduledDate := none
    scheduledTime := none
    timeZone := "UTC"
    estimatedMinutes := none
    priority := some .high
    pomodoroCount := 0
    completed := false
    completedAt := none
    order := 1 }

/-- The same task with low priority instead. -/
def overdueLow : Task := { overdueHigh with priority := some .low }

/-- C7 counterexample: two tasks identical except for priority (high vs low),
both non-completed with the same (overdue) due instant, receive EQUAL urgency
scores — the high-priority score is not strictly less. -/
theorem c7_counterexample :
    overdueLow = { overdueHigh with priority := some TaskPriority.low } ∧
    overdueHigh.completed = false ∧
    getTaskDueDate overdueEnv overdueHigh = getTaskDueDate overdueEnv overdueLow ∧
    getTaskUrgency overdueEnv overdueHigh = getTaskUrgency overdueEnv overdueLow ∧
    ¬ scoreLt (getTaskUrgency overdueEnv overdueHigh)
        (getTaskUrgency overdueEnv overdueLow) := by
  refine ⟨rfl, rfl, rfl, ?_, ?_⟩
  · decide
  · decide

/-- C7 witness: the amended ordering at a concrete future-due task. -/
theorem c7_priority_orders_future_scores_witness :
    scoreLt (getTaskUrgency boundaryEnv { boundaryTask with priority := some .high })
      (getTaskUrgency boundaryEnv { boundaryTask with priority := some .low }) :=
  c7_priority_orders_future_scores boundaryEnv boundaryTask (7 * 24 * 60)
    (by decide) (by decide) (by decide)

/-!
The task mutation store (src/unnamed/part_000, taskStore).

* `undoStack` is kept most-recent-first here; the source keeps the array
  oldest-first, pushes at the end, pops from the end and evicts index 0 with
  shift(). The two representations are mirror images: push is cons, pop is
  head, eviction drops the last element.
* Every mutation entry point takes a `writeOk` flag that models whether the
  awaited storage write (saveTask / deleteTask) resolves or rejects; the
  source awaits the write before touching the in-memory collection and the
  undo stack, so a rejected write leaves the state unchanged.
* `storage` is the persisted collection of the adapter, an upsert-by-id
  record store.
* `id` is immutable after creation (spec section 3) and updatedAt is always
  overwritten by updateTask, so the update patch record carries every Task
  field except those two; for nullable fields the patch distinguishes
  "field absent" from "field set to null", matching JS object spread.
-/

/-- Partial<Task> as consumed by createTask: every field optional. createTask
reads each field through ||-defaulting, which identifies null, undefined and
the other falsy values, so one Option level suffices. -/
structure CreateData where
  id : Option Nat := none
  title : Option String := none
  type : Option TaskType := none
  subject : Option String := none
  notes : Option String := none
  createdAt : Option Nat := none
  updatedAt : Option Nat := none
  dueDate : Option String := none
  dueTime : Option String := none
  scheduledDate : Option String := none
  scheduledTime : Option String := none
  timeZone : Option String := none
  estimatedMinutes : Option Nat := none
  priority : Option TaskPriority := none
  pomodoroCount : Option Nat := none
  completed : Option Bool := none
  completedAt : Option Nat := none
  order : Option Int := none
deriving DecidableEq, Repr

/-- Partial<Task> as consumed by updateTask's object spread: an absent field
keeps the previous value, a present field overwrites it (possibly with null). -/
structure Patch where
  title : Option String := none
  type : Option TaskType := none
  subject : Option (Option String) := none
  notes : Option (Option String) := none
  createdAt : Option Nat := none
  dueDate : Option (Option String) := none
  dueTime : Option (Option String) := none
  scheduledDate : Option (Option String) := none
  scheduledTime : Option (Option String) := none
  timeZone : Option String := none
  estimatedMinutes : Option (Option Nat) := none
  priority : Option (Option TaskPriority) := none
  pomodoroCount : Option Nat := none
  completed : Option Bool := none
  completedAt : Option (Option Nat) := none
  order : Option Int := none
deriving DecidableEq, Repr

/-- UndoAction of types.ts: tagged union over the three mutation kinds; the
update record always carries the pre-mutation snapshot (the source sets
previousTask on every update push). -/
inductive UndoAction where
  | create (task : Task)
  | update (task : Task) (previousTask : Task)
  | delete (task : Task)
deriving DecidableEq, Repr

/-- The module-level state of taskStore: the in-memory signal, the undo stack
(most-recent-first, see the note above), the uuid freshness counter, and the
adapter's persisted collection. -/
structure StoreState where
  tasks : List Task
  undoStack : List UndoAction
  nextId : Nat
  storage : List Task
deriving DecidableEq, Repr

/-- MAX_UNDO_STACK = 50. -/
def MAX_UNDO_STACK : Nat := 50

/-- addToUndoStack: push, then evict the oldest record when the stack exceeds
MAX_UNDO_STACK. Most-recent-first: cons, then drop the last element. -/
def addToUndoStack (action : UndoAction) (stack : List UndoAction) : List UndoAction :=
  (action :: stack).take MAX_UNDO_STACK

/-- JS ||-coercion of an optional string field to null: absent, null and the
empty string all become null. -/
def strFalsy : Option String → Option String
  | some s => if s = "" then none else some s
  | none => none

/-- JS ||-coercion of an optional number field to null: absent, null and 0 all
become null. -/
def natFalsy : Option Nat → Option Nat
  | some 0 => none
  | v => v

/-- Array.prototype.find(t => t.id === id). -/
def findTask (id : Nat) : List Task → Option Task
  | [] => none
  | t :: ts => if t.id = id then some t else findTask id ts

/-- findIndex(t => t.id === a.id) followed by replacing that slot with `a`;
the list is unchanged when no task has that id. Used by updateTask and by the
update branch of undo. -/
def replaceTask (a : Task) : List Task → List Task
  | [] => []
  | t :: ts => if t.id = a.id then a :: ts else t :: replaceTask a ts

/-- saveTask of the storage adapter: upsert by id. -/
def saveToStorage (a : Task) (l : List Task) : List Task :=
  if l.any fun t => t.id = a.id then replaceTask a l else l ++ [a]

/-- deleteTask of the storage adapter: remove by id (no-op when absent). -/
def deleteFromStorage (id : Nat) (l : List Task) : List Task :=
  l.filter fun t => !(t.id = id : Bool)

/-- The Task record built by createTask (lines 44-63): derived defaults, a
fresh id, timestamps = now, the environment zone, and order = max existing
order (or 0) + 1. -/
def buildTask (data : CreateData) (now : Nat) (tz : String) (s : StoreState) : Task :=
  let maxOrder : Int :=
    match s.tasks with
    | [] => 0
    | t :: ts => ts.foldl (fun m x => max m x.order) t.order
  { id := s.nextId
    title := match data.title with
      | some ttl => if ttl = "" then "Untitled Task" else ttl
      | none => "Untitled Task"
    type := data.type.getD .life
    subject := strFalsy data.subject
    notes := strFalsy data.notes
    createdAt := now
    updatedAt := now
    dueDate := strFalsy data.dueDate
    dueTime := strFalsy data.dueTime
    scheduledDate := strFalsy data.scheduledDate
    scheduledTime := strFalsy data.scheduledTime
    timeZone := tz
    estimatedMinutes := natFalsy data.estimatedMinutes
    priority := data.priority
    pomodoroCount := 0
    completed := false
    completedAt := none
    order := maxOrder + 1 }

/-- createTask: build the task, await the storage write, then append to the
in-memory collection and push a create undo record. A rejected write (writeOk
= false) aborts before any state change; the first component is the returned
task (none on storage failure). -/
def createTask (writeOk : Bool) (data : CreateData) (now : Nat) (tz : String)
    (s : StoreState) : Option Task × StoreState :=
  let task := buildTask data now tz s
  if writeOk then
    (some task,
      { tasks := s.tasks ++ [task]
        undoStack := addToUndoStack (.create task) s.undoStack
        nextId := s.nextId + 1
        storage := saveToStorage task s.storage })
  else (none, s)

/-- {...previousTask, ...updates, updatedAt: now}: field-by-field merge with
the id kept and updatedAt stamped. -/
def applyPatch (t : Task) (p : Patch) (now : Nat) : Task :=
  { id := t.id
    title := p.title.getD t.title
    type := p.type.getD t.type
    subject := p.subject.getD t.subject
    notes := p.notes.getD t.notes
    createdAt := p.createdAt.getD t.createdAt
    updatedAt := now
    dueDate := p.dueDate.getD t.dueDate
    dueTime := p.dueTime.getD t.dueTime
    scheduledDate := p.scheduledDate.getD t.scheduledDate
    scheduledTime := p.scheduledTime.getD t.scheduledTime
    timeZone := p.timeZone.getD t.timeZone
    estimatedMinutes := p.estimatedMinutes.getD t.estimatedMinutes
    priority := p.priority.getD t.priority
    pomodoroCount := p.pomodoroCount.getD t.pomodoroCount
    completed := p.completed.getD t.completed
    completedAt := p.completedAt.getD t.completedAt
    order := p.order.getD t.order }

/-- Result of updateTask: null for an absent id, the merged task on success,
or a rejected storage write. -/
inductive UpdateResult where
  | notFound
  | storageError
  | updated (t : Task)
deriving DecidableEq, Repr

/-- updateTask: not-found returns null without touching anything; otherwise
merge, await the storage write, then replace the in-memory entry and push an
update undo record carrying both snapshots. -/
def updateTask (writeOk : Bool) (id : Nat) (p : Patch) (now : Nat)
    (s : StoreState) : UpdateResult × StoreState :=
  match findTask id s.tasks with
  | none => (.notFound, s)
  | some previousTask =>
    let updatedTask := applyPatch previousTask p now
    if writeOk then
      (.updated updatedTask,
        { tasks := replaceTask updatedTask s.tasks
          undoStack := addToUndoStack (.update updatedTask previousTask) s.undoStack
          nextId := s.nextId
          storage := saveToStorage updatedTask s.storage })
    else (.storageError, s)

/-- removeTask: silent no-op for an absent id; otherwise await the storage
delete, then filter the in-memory collection and push a delete undo record. -/
def removeTask (writeOk : Bool) (id : Nat) (s : StoreState) : StoreState :=
  match findTask id s.tasks with
  | none => s
  | some task =>
    if writeOk then
      { tasks := s.tasks.filter fun t => !(t.id = id : Bool)
        undoStack := addToUndoStack (.delete task) s.undoStack
        nextId := s.nextId
        storage := deleteFromStorage id s.storage }
    else s

/-- toggleTaskCompletion: flip completed, set completedAt = now when
transitioning to complete and clear it otherwise, implemented via updateTask. -/
def toggleTaskCompletion (writeOk : Bool) (id : Nat) (now : Nat)
    (s : StoreState) : StoreState :=
  match findTask id s.tasks with
  | none => s
  | some task =>
    (updateTask writeOk id
      { completed := some (!task.completed)
        completedAt := some (if !task.completed then some now else none) }
      now s).2

/-- incrementPomodoro: pomodoroCount += 1 via updateTask. -/
def incrementPomodoro (writeOk : Bool) (id : Nat) (now : Nat)
    (s : StoreState) : StoreState :=
  match findTask id s.tasks with
  | none => s
  | some task =>
    (updateTask writeOk id { pomodoroCount := some (task.pomodoroCount + 1) } now s).2

/-- The in-memory effect of replaying one popped undo record (lines 138-155):
inverse of create filters the created id out, inverse of update restores the
pre-mutation snapshot in place (no-op when the id is gone), inverse of delete
appends the removed snapshot. -/
def undoReplayTasks : UndoAction → List Task → List Task
  | .create task, l => l.filter fun t => !(t.id = task.id : Bool)
  | .update _ previousTask, l => replaceTask previousTask l
  | .delete task, l => l ++ [task]

/-- The storage effect of replaying one popped undo record. -/
def undoReplayStorage : UndoAction → List Task → List Task
  | .create task, l => deleteFromStorage task.id l
  | .update _ previousTask, l => saveToStorage previousTask l
  | .delete task, l => saveToStorage task l

/-- undo(): pop the most recent record (no-op on an empty stack) and perform
its structural inverse on storage and the in-memory collection. -/
def undo (s : StoreState) : StoreState :=
  match s.undoStack with
  | [] => s
  | action :: rest =>
    { tasks := undoReplayTasks action s.tasks
      undoStack := rest
      nextId := s.nextId
      storage := undoReplayStorage action s.storage }

/-- canUndo(): the stack is non-empty. -/
def canUndo (s : StoreState) : Bool := !s.undoStack.isEmpty

/-- One store mutation (the three undoable entry points), with its call-time
arguments. -/
inductive Mutation where
  | create (data : CreateData) (now : Nat) (tz : String)
  | update (id : Nat) (p : Patch) (now : Nat)
  | delete (id : Nat)
deriving Repr

/-- Apply one mutation with a succeeding storage write. -/
def applyMutation (m : Mutation) (s : StoreState) : StoreState :=
  match m with
  | .create data now tz => (createTask true data now tz s).2
  | .update id p now => (updateTask true id p now s).2
  | .delete id => removeTask true id s

/-- Apply a sequence of mutations left to right. -/
def applyAll (ms : List Mutation) (s : StoreState) : StoreState :=
  ms.foldl (fun s m => applyMutation m s) s

/-- n undo() calls. -/
def undoN (n : Nat) (s : StoreState) : StoreState := undo^[n] s

/-- Store invariant: in-memory ids are distinct and below the freshness
counter, and the undo stack respects its capacity. -/
def Inv (s : StoreState) : Prop :=
  (s.tasks.map Task.id).Nodup ∧
  (∀ i ∈ s.tasks.map Task.id, i < s.nextId) ∧
  s.undoStack.length ≤ MAX_UNDO_STACK

instance (s : StoreState) : Decidable (Inv s) := by
  unfold Inv
  infer_instance

/-- A mutation is effective when it pushes an undo record: creates always do,
updates and deletes only when the id is present. -/
def effOneB (s : StoreState) (m : Mutation) : Bool :=
  match m with
  | .create _ _ _ => true
  | .update id _ _ => (findTask id s.tasks).isSome
  | .delete id => (findTask id s.tasks).isSome

/-- Every mutation of the sequence is effective at its point of application. -/
def effectiveB (s : StoreState) : List Mutation → Bool
  | [] => true
  | m :: ms => effOneB s m && effectiveB (applyMutation m s) ms

/-- The undo record pushed by an effective mutation. -/
def mkRecord (m : Mutation) (s : StoreState) : Option UndoAction :=
  match m with
  | .create data now tz => some (.create (buildTask data now tz s))
  | .update id p now =>
    match findTask id s.tasks with
    | none => none
    | some prev => some (.update (applyPatch prev p now) prev)
  | .delete id =>
    match findTask id s.tasks with
    | none => none
    | some task => some (.delete task)

/-- findTask returns a member of the list bearing the requested id. -/
lemma findTask_some {id : Nat} {l : List Task} {t : Task}
    (h : findTask id l = some t) : t.id = id ∧ t ∈ l := by
  induction l with
  | nil => exact absurd h (by simp [findTask])
  | cons x xs ih =>
    unfold findTask at h
    by_cases hx : x.id = id
    · rw [if_pos hx] at h
      obtain rfl : x = t := by injection h
      exact ⟨hx, List.mem_cons_self x xs⟩
    · rw [if_neg hx] at h
      obtain ⟨h1, h2⟩ := ih h
      exact ⟨h1, List.mem_cons_of_mem x h2⟩

/-- Replacing never changes the id sequence: the replaced slot had the same id. -/
lemma map_id_replaceTask (a : Task) (l : List Task) :
    (replaceTask a l).map Task.id = l.map Task.id := by
  induction l with
  | nil => rfl
  | cons x xs ih =>
    unfold replaceTask
    by_cases hx : x.id = a.id
    · rw [if_pos hx]
      simp [hx]
    · rw [if_neg hx]
      simp [ih]

/-- Every element of a replaced list is the replacement or an original element. -/
lemma mem_replaceTask {a x : Task} {l : List Task}
    (h : x ∈ replaceTask a l) : x = a ∨ x ∈ l := by
  induction l with
  | nil => exact absurd h (by simp [replaceTask])
  | cons y ys ih =>
    unfold replaceTask at h
    by_cases hy : y.id = a.id
    · rw [if_pos hy] at h
      rcases List.mem_cons.mp h with h1 | h1
      · exact Or.inl h1
      · exact Or.inr (List.mem_cons_of_mem y h1)
    · rw [if_neg hy] at h
      rcases List.mem_cons.mp h with h1 | h1
      · exact Or.inr (h1 ▸ List.mem_cons_self y ys)
      · rcases ih h1 with h2 | h2
        · exact Or.inl h2
        · exact Or.inr (List.mem_cons_of_mem y h2)

/-- After replacing, looking the id up yields the replacement (when the id was
present before). -/
lemma findTask_replaceTask {a b : Task} {l : List Task}
    (h : findTask a.id l = some b) :
    findTask a.id (replaceTask a l) = some a := by
  induction l with
  | nil => exact absurd h (by simp [findTask])
  | cons x xs ih =>
    by_cases hx : x.id = a.id
    · unfold replaceTask
      rw [if_pos hx]
      unfold findTask
      rw [if_pos rfl]
    · unfold findTask at h
      rw [if_neg hx] at h
      unfold replaceTask
      rw [if_neg hx]
      unfold findTask
      rw [if_neg hx]
      exact ih h

/-- Members of the bounded push are the new record or old members. -/
lemma mem_addToUndoStack {a r : UndoAction} {stack : List UndoAction}
    (h : r ∈ addToUndoStack a stack) : r = a ∨ r ∈ stack := by
  unfold addToUndoStack at h
  have := List.take_subset MAX_UNDO_STACK (a :: stack) h
  exact List.mem_cons.mp this

/-- C8: when the awaited storage write rejects, each of the three mutation
entry points leaves the entire store state (in-memory collection, undo stack,
persisted collection, id counter) unchanged. -/
theorem c8_failed_write_leaves_state (data : CreateData) (now tz_now : Nat)
    (tz : String) (id : Nat) (p : Patch) (s : StoreState) :
    (createTask false data now tz s).2 = s ∧
    (updateTask false id p tz_now s).2 = s ∧
    removeTask false id s = s := by
  refine ⟨rfl, ?_, ?_⟩
  · unfold updateTask
    rcases findTask id s.tasks with _ | prev <;> rfl
  · unfold removeTask
    rcases findTask id s.tasks with _ | task <;> rfl

/-- Math.max over the order fields, or 0 for an empty collection. -/
def maxOrder (l : List Task) : Int :=
  match l with
  | [] => 0
  | t :: ts => ts.foldl (fun m x => max m x.order) t.order

/-- C10: createTask always returns and appends a task with a fresh id,
completed = false, completedAt = null, pomodoroCount = 0 and
order = maxOrder + 1, and the values the caller supplies for id, completed,
completedAt, pomodoroCount and order are ignored. -/
theorem c10_create_defaults (data : CreateData) (now : Nat) (tz : String)
    (s : StoreState) (hinv : Inv s) :
    ∃ t, (createTask true data now tz s).1 = some t ∧
      (createTask true data now tz s).2.tasks = s.tasks ++ [t] ∧
      t.id ∉ s.tasks.map Task.id ∧
      t.completed = false ∧
      t.completedAt = none ∧
      t.pomodoroCount = 0 ∧
      t.order = maxOrder s.tasks + 1 ∧
      (∀ i cm ca pc od,
        createTask true
          { data with
              id := i
              completed := cm
              completedAt := ca
              pomodoroCount := pc
              order := od } now tz s =
          createTask true data now tz s) := by
  refine ⟨buildTask data now tz s, rfl, rfl, ?_, rfl, rfl, rfl, ?_, ?_⟩
  · intro hmem
    have hlt := hinv.2.1 _ hmem
    exact lt_irrefl _ hlt
  · show maxOrder s.tasks + 1 = maxOrder s.tasks + 1
    rfl
  · intro i cm ca pc od
    rfl

/-- C6 (amended): toggleCompletion applied twice restores the original
(completed, completedAt) pair for every stored task that is not completed and
has no completion timestamp; re-completing an initially-completed task instead
stamps the second toggle's time. -/
theorem c6_double_toggle_restores_incomplete (s : StoreState) (id now1 now2 : Nat)
    (t : Task) (hf : findTask id s.tasks = some t)
    (hc : t.completed = false) (hca : t.completedAt = none) :
    ∃ t2, findTask id
        (toggleTaskCompletion true id now2 (toggleTaskCompletion true id now1 s)).tasks =
        some t2 ∧
      t2.completed = t.completed ∧ t2.completedAt = t.completedAt := by
  obtain ⟨hid, _⟩ := findTask_some hf
  subst hid
  set p1 : Patch :=
    { completed := some (!t.completed)
      completedAt := some (if !t.completed then some now1 else none) } with hp1
  set u1 := applyPatch t p1 now1 with hu1
  have hu1id : u1.id = t.id := rfl
  have hs1 : toggleTaskCompletion true t.id now1 s =
      { tasks := replaceTask u1 s.tasks
        undoStack := addToUndoStack (.update u1 t) s.undoStack
        nextId := s.nextId
        storage := saveToStorage u1 s.storage } := by
    unfold toggleTaskCompletion
    rw [hf]
    unfold updateTask
    rw [hf]
    rfl
  have hf1 : findTask t.id (replaceTask u1 s.tasks) = some u1 := by
    have := findTask_replaceTask (a := u1) (b := t) (l := s.tasks)
    rw [hu1id] at this
    exact this hf
  have hu1completed : u1.completed = true := by
    rw [hu1, hp1]
    simp [applyPatch, hc]
  set p2 : Patch :=
    { completed := some (!u1.completed)
      completedAt := some (if !u1.completed then some now2 else none) } with hp2
  set u2 := applyPatch u1 p2 now2 with hu2
  have hu2id : u2.id = t.id := rfl
  have hs2 : toggleTaskCompletion true t.id now2 (toggleTaskCompletion true t.id now1 s) =
      { tasks := replaceTask u2 (replaceTask u1 s.tasks)
        undoStack := addToUndoStack (.update u2 u1)
          (addToUndoStack (.update u1 t) s.undoStack)
        nextId := s.nextId
        storage := saveToStorage u2 (saveToStorage u1 s.storage) } := by
    rw [hs1]
    unfold toggleTaskCompletion
    simp only [hf1]
    unfold updateTask
    simp only [hf1]
    rfl
  refine ⟨u2, ?_, ?_, ?_⟩
  · rw [hs2]
    have := findTask_replaceTask (a := u2) (b := u1) (l := replaceTask u1 s.tasks)
    rw [hu2id] at this
    exact this hf1
  · rw [hu2, hp2, hu1completed]
    simp [applyPatch, hc]
  · rw [hu2, hp2, hu1completed]
    simp [applyPatch, hca]

/-- Concrete store holding one already-completed task (completedAt = 5). -/
def completedTask : Task :=
  { id := 0
    title := "done"
    type := .life
    subject := none
    notes := none
    createdAt := 0
    updatedAt := 0
    dueDate := none
    dueTime := none
    scheduledDate := none
    scheduledTime := none
    timeZone := "UTC"
    estimatedMinutes := none
    priority := none
    pomodoroCount := 0
    completed := true
    completedAt := some 5
    order := 1 }

/-- The store whose only task is completedTask. -/
def completedStore : StoreState :=
  { tasks := [completedTask]
    undoStack := []
    nextId := 1
    storage := [completedTask] }

/-- C6 counterexample: toggling an initially-completed task twice (at times
10 and 11) does NOT restore its original (completed, completedAt) pair — the
pair becomes (true, 11) instead of (true, 5). -/
theorem c6_counterexample :
    completedStore.tasks.map (fun t => (t.completed, t.completedAt)) =
      [(true, some 5)] ∧
    (toggleTaskCompletion true 0 11
        (toggleTaskCompletion true 0 10 completedStore)).tasks.map
        (fun t => (t.completed, t.completedAt)) = [(true, some 11)] ∧
    ¬ ((toggleTaskCompletion true 0 11
        (toggleTaskCompletion true 0 10 completedStore)).tasks.map
        (fun t => (t.completed, t.completedAt)) =
      completedStore.tasks.map (fun t => (t.completed, t.completedAt))) := by
  refine ⟨rfl, rfl, ?_⟩
  decide

/-- C6 witness: the amended double-toggle restoration at a concrete
non-completed task. -/
theorem c6_double_toggle_restores_incomplete_witness :
    ∃ t2, findTask 0
        (toggleTaskCompletion true 0 11
          (toggleTaskCompletion true 0 10
            { tasks := [boundaryTask]
              undoStack := []
              nextId := 1
              storage := [boundaryTask] })).tasks = some t2 ∧
      t2.completed = boundaryTask.completed ∧
      t2.completedAt = boundaryTask.completedAt :=
  c6_double_toggle_restores_incomplete _ 0 10 11 boundaryTask rfl rfl rfl

/-- The completion invariant of one task: completed == true iff completedAt
is non-null. -/
def compOK (t : Task) : Bool := t.completed == t.completedAt.isSome

/-- The completion invariant of the snapshots held by one undo record. -/
def recordOK : UndoAction → Bool
  | .create t => compOK t
  | .update t prev => compOK t && compOK prev
  | .delete t => compOK t

/-- The completion invariant of a whole store state: every live task and
every stacked snapshot satisfies it. -/
def stateOK (s : StoreState) : Prop :=
  (∀ t ∈ s.tasks, compOK t = true) ∧ (∀ r ∈ s.undoStack, recordOK r = true)

instance (s : StoreState) : Decidable (stateOK s) := by
  unfold stateOK
  infer_instance

/-- An update patch is consistent when it touches completed and completedAt
together, with matching values, or touches neither. -/
def consistentPatch (p : Patch) : Bool :=
  match p.completed, p.completedAt with
  | none, none => true
  | some b, some c => b == c.isSome
  | _, _ => false

/-- Merging a consistent patch preserves the completion invariant. -/
lemma compOK_applyPatch {t : Task} {p : Patch} (now : Nat)
    (ht : compOK t = true) (hp : consistentPatch p = true) :
    compOK (applyPatch t p now) = true := by
  unfold consistentPatch at hp
  unfold compOK at ht
  unfold compOK applyPatch
  rcases hb : p.completed with _ | b <;> rcases hc : p.completedAt with _ | c <;>
    rw [hc] at hp <;> simp_all

/-- updateTask with a consistent patch preserves the completion invariant. -/
lemma stateOK_update {s : StoreState} (id : Nat) {p : Patch} (now : Nat)
    (hs : stateOK s) (hp : consistentPatch p = true) :
    stateOK (updateTask true id p now s).2 := by
  unfold updateTask
  rcases hf : findTask id s.tasks with _ | prev
  · exact hs
  · obtain ⟨_, hmem⟩ := findTask_some hf
    have hprev : compOK prev = true := hs.1 prev hmem
    have hupd : compOK (applyPatch prev p now) = true := compOK_applyPatch now hprev hp
    constructor
    · intro t ht
      rcases mem_replaceTask ht with h1 | h1
      · rw [h1]; exact hupd
      · exact hs.1 t h1
    · intro r hr
      rcases mem_addToUndoStack hr with h1 | h1
      · rw [h1]
        simp [recordOK, hupd, hprev]
      · exact hs.2 r h1

/-- undo preserves the completion invariant. -/
lemma stateOK_undo {s : StoreState} (hs : stateOK s) : stateOK (undo s) := by
  unfold undo
  rcases hst : s.undoStack with _ | ⟨action, rest⟩
  · exact hs
  · have hrec : recordOK action = true := hs.2 action (by rw [hst]; exact List.mem_cons_self action rest)
    have hrest : ∀ r ∈ rest, recordOK r = true := by
      intro r hr
      exact hs.2 r (by rw [hst]; exact List.mem_cons_of_mem action hr)
    constructor
    · intro t ht
      rcases haction : action with task | ⟨task, prev⟩ | task <;>
        rw [haction] at ht <;> unfold undoReplayTasks at ht
      · exact hs.1 t (List.mem_of_mem_filter ht)
      · rcases mem_replaceTask ht with h1 | h1
        · rw [h1]
          rw [haction] at hrec
          unfold recordOK at hrec
          simp only [Bool.and_eq_true] at hrec
          exact hrec.2
        · exact hs.1 t h1
      · rcases List.mem_append.mp ht with h1 | h1
        · exact hs.1 t h1
        · have : t = task := by simpa using h1
          rw [this]
          rw [haction] at hrec
          exact hrec
    · exact hrest

/-- C9 (amended): provided every consumer-supplied update patch sets completed
and completedAt consistently, every store operation preserves the invariant
that a live task (or stacked snapshot) has completed == true iff
completedAt != null. -/
theorem c9_completion_invariant_preserved (s : StoreState) (hs : stateOK s) :
    (∀ data now tz, stateOK (createTask true data now tz s).2) ∧
    (∀ id p now, consistentPatch p = true → stateOK (updateTask true id p now s).2) ∧
    (∀ id, stateOK (removeTask true id s)) ∧
    (∀ id now, stateOK (toggleTaskCompletion true id now s)) ∧
    (∀ id now, stateOK (incrementPomodoro true id now s)) ∧
    stateOK (undo s) := by
  refine ⟨?_, ?_, ?_, ?_, ?_, stateOK_undo hs⟩
  · intro data now tz
    unfold createTask
    simp only [if_pos]
    constructor
    · intro t ht
      rcases List.mem_append.mp ht with h1 | h1
      · exact hs.1 t h1
      · have : t = buildTask data now tz s := by simpa using h1
        rw [this]
        rfl
    · intro r hr
      rcases mem_addToUndoStack hr with h1 | h1
      · rw [h1]; rfl
      · exact hs.2 r h1
  · intro id p now hp
    exact stateOK_update id now hs hp
  · intro id
    unfold removeTask
    rcases hf : findTask id s.tasks with _ | task
    · exact hs
    · simp only [if_pos]
      constructor
      · intro t ht
        exact hs.1 t (List.mem_of_mem_filter ht)
      · intro r hr
        rcases mem_addToUndoStack hr with h1 | h1
        · rw [h1]
          unfold recordOK
          exact hs.1 task (findTask_some hf).2
        · exact hs.2 r h1
  · intro id now
    unfold toggleTaskCompletion
    rcases hf : findTask id s.tasks with _ | task
    · exact hs
    · refine stateOK_update id now hs ?_
      unfold consistentPatch
      rcases task.completed <;> rfl
  · intro id now
    unfold incrementPomodoro
    rcases hf : findTask id s.tasks with _ | task
    · exact hs
    · exact stateOK_update id now hs rfl

/-- A patch that marks a task completed without touching completedAt. -/
def inconsistentPatch : Patch := { completed := some true }

/-- A store holding one invariant-satisfying task. -/
def plainStore : StoreState :=
  { tasks := [boundaryTask]
    undoStack := []
    nextId := 1
    storage := [boundaryTask] }

/-- C9 counterexample: updateTask accepts a patch setting completed = true
without setting completedAt, producing a live task with completed = true and
completedAt = null — the claimed invariant does not hold after every store
operation. -/
theorem c9_counterexample :
    stateOK plainStore ∧
    (updateTask true 0 inconsistentPatch 7 plainStore).2.tasks.map
      (fun t => (t.completed, t.completedAt)) = [(true, none)] ∧
    ¬ stateOK (updateTask true 0 inconsistentPatch 7 plainStore).2 := by
  refine ⟨by decide, rfl, by decide⟩

/-- C9 witness: invariant preservation at a concrete store and operations. -/
theorem c9_completion_invariant_preserved_witness :
    stateOK (removeTask true 0 plainStore) ∧
    stateOK (toggleTaskCompletion true 0 9 plainStore) ∧
    stateOK (undo plainStore) := by
  have h := c9_completion_invariant_preserved plainStore (by decide)
  exact ⟨h.2.2.1 0, h.2.2.2.1 0 9, h.2.2.2.2.2⟩

/-- The store before any mutation. -/
def emptyStore : StoreState :=
  { tasks := [], undoStack := [], nextId := 0, storage := [] }

/-- One createTask call with no caller-supplied fields, at time 0. -/
def createStep : StoreState → StoreState :=
  fun s => (createTask true {} 0 "UTC" s).2

/-- The store after 51 consecutive creates. -/
def store51 : StoreState := createStep^[51] emptyStore

/-- C3: the undo stack is a bounded buffer of capacity 50 — a push on a stack
within capacity stays within capacity, a push on a full stack evicts the
oldest record (the last in the most-recent-first representation) and keeps the
new one; concretely, after 51 creates the stack holds 50 records and 51
undo() calls reverse exactly 50 of them, leaving the first created task (id 0)
irreversibly in place. -/
theorem c3_bounded_undo_history :
    (∀ (stack : List UndoAction) (a : UndoAction),
      stack.length ≤ MAX_UNDO_STACK →
        (addToUndoStack a stack).length ≤ MAX_UNDO_STACK ∧
        (stack.length = MAX_UNDO_STACK →
          addToUndoStack a stack = a :: stack.dropLast)) ∧
    store51.undoStack.length = 50 ∧
    (undoN 51 store51).undoStack = [] ∧
    (undoN 51 store51).tasks.map Task.id = [0] := by
  refine ⟨?_, ?_, ?_, ?_⟩
  · intro stack a h
    constructor
    · exact List.length_take_le MAX_UNDO_STACK (a :: stack)
    · intro h50
      unfold addToUndoStack
      rw [List.dropLast_eq_take, h50]
      rfl
  · decide
  · decide
  · decide

/-- A full undo stack of 50 records. -/
def fullStack : List UndoAction := List.replicate 50 (UndoAction.create boundaryTask)

/-- C3 witness: the bounded-push facts at a concrete full stack. -/
theorem c3_bounded_undo_history_witness :
    (addToUndoStack (UndoAction.create completedTask) fullStack).length ≤ MAX_UNDO_STACK ∧
    addToUndoStack (UndoAction.create completedTask) fullStack =
      UndoAction.create completedTask :: fullStack.dropLast := by
  have h := c3_bounded_undo_history.1 fullStack (UndoAction.create completedTask) (by decide)
  exact ⟨h.1, h.2 (by decide)⟩

/-- Distinct ids make Task.id injective on the list. -/
lemma task_id_inj {l : List Task} (h : (l.map Task.id).Nodup) {a b : Task}
    (ha : a ∈ l) (hb : b ∈ l) (he : a.id = b.id) : a = b :=
  List.inj_on_of_nodup_map h ha hb he

/-- Under distinct ids, replacing the first id-match is the pointwise map that
substitutes the unique carrier of that id. -/
lemma replaceTask_eq_map {a : Task} {l : List Task}
    (h : (l.map Task.id).Nodup) :
    replaceTask a l = l.map fun t => if t.id = a.id then a else t := by
  induction l with
  | nil => rfl
  | cons x xs ih =>
    simp only [List.map_cons, List.nodup_cons] at h
    unfold replaceTask
    by_cases hx : x.id = a.id
    · rw [if_pos hx]
      simp only [List.map_cons, if_pos hx]
      have hmap : xs.map (fun t => if t.id = a.id then a else t) = xs := by
        have hcongr : ∀ t ∈ xs, (if t.id = a.id then a else t) = t := by
          intro t ht
          rw [if_neg]
          intro hta
          exact h.1 (by rw [← hx] at hta; exact hta ▸ List.mem_map_of_mem Task.id ht)
        have := List.map_congr_left hcongr
        simpa using this
      rw [hmap]
    · rw [if_neg hx]
      simp only [List.map_cons, if_neg hx]
      rw [ih h.2]

/-- Filtering away an id that no element carries is the identity. -/
lemma filter_ne_eq_self {l : List Task} {x : Nat} (h : ∀ t ∈ l, t.id ≠ x) :
    (l.filter fun t => !(t.id = x : Bool)) = l := by
  apply List.filter_eq_self.mpr
  intro a ha
  simpa using h a ha

/-- Under distinct ids, a list is a permutation of its unique id-carrier
consed onto the filtered remainder. -/
lemma perm_cons_filter {l : List Task} {j : Nat} {x : Task}
    (hnodup : (l.map Task.id).Nodup) (hf : findTask j l = some x) :
    List.Perm l (x :: l.filter fun t => !(t.id = j : Bool)) := by
  induction l with
  | nil => simp [findTask] at hf
  | cons y ys ih =>
    simp only [List.map_cons, List.nodup_cons] at hnodup
    unfold findTask at hf
    by_cases hy : y.id = j
    · rw [if_pos hy] at hf
      obtain rfl : y = x := by injection hf
      have hpy : (!(y.id = j : Bool)) = false := by simp [hy]
      have hys : ys.filter (fun t => !(t.id = j : Bool)) = ys := by
        apply filter_ne_eq_self
        intro a ha haj
        apply hnodup.1
        have hay : a.id = y.id := by rw [haj, hy]
        exact hay ▸ List.mem_map_of_mem Task.id ha
      simp only [List.filter_cons, hpy, Bool.false_eq_true, if_false, hys]
      exact List.Perm.refl _
    · rw [if_neg hy] at hf
      have hpy : (!(y.id = j : Bool)) = true := by simp [hy]
      have ihp := ih hnodup.2 hf
      simp only [List.filter_cons, hpy, if_true]
      exact (ihp.cons y).trans (List.Perm.swap x y _)

/-- The state produced by an effective create. -/
lemma applyMutation_create_eq (data : CreateData) (now : Nat) (tz : String)
    (s : StoreState) :
    applyMutation (.create data now tz) s =
      { tasks := s.tasks ++ [buildTask data now tz s]
        undoStack := addToUndoStack (.create (buildTask data now tz s)) s.undoStack
        nextId := s.nextId + 1
        storage := saveToStorage (buildTask data now tz s) s.storage } := rfl

/-- The state produced by an effective update. -/
lemma applyMutation_update_eq (j : Nat) (p : Patch) (now : Nat)
    (s : StoreState) (b : Task) (hf : findTask j s.tasks = some b) :
    applyMutation (.update j p now) s =
      { tasks := replaceTask (applyPatch b p now) s.tasks
        undoStack := addToUndoStack (.update (applyPatch b p now) b) s.undoStack
        nextId := s.nextId
        storage := saveToStorage (applyPatch b p now) s.storage } := by
  show (updateTask true j p now s).2 = _
  unfold updateTask
  rw [hf]
  rfl

/-- The state produced by an effective delete. -/
lemma applyMutation_delete_eq (j : Nat) (s : StoreState) (b : Task)
    (hf : findTask j s.tasks = some b) :
    applyMutation (.delete j) s =
      { tasks := s.tasks.filter fun t => !(t.id = j : Bool)
        undoStack := addToUndoStack (.delete b) s.undoStack
        nextId := s.nextId
        storage := deleteFromStorage j s.storage } := by
  show removeTask true j s = _
  unfold removeTask
  rw [hf]
  rfl

/-- Ineffective updates and deletes leave the state unchanged. -/
lemma applyMutation_update_none (j : Nat) (p : Patch) (now : Nat)
    (s : StoreState) (hf : findTask j s.tasks = none) :
    applyMutation (.update j p now) s = s := by
  show (updateTask true j p now s).2 = s
  unfold updateTask
  rw [hf]

lemma applyMutation_delete_none (j : Nat) (s : StoreState)
    (hf : findTask j s.tasks = none) :
    applyMutation (.delete j) s = s := by
  show removeTask true j s = s
  unfold removeTask
  rw [hf]

/-- The record pushed by a create. -/
lemma mkRecord_create (data : CreateData) (now : Nat) (tz : String)
    (s : StoreState) :
    mkRecord (.create data now tz) s = some (.create (buildTask data now tz s)) := rfl

/-- The record pushed by an effective update. -/
lemma mkRecord_update {j : Nat} (p : Patch) (now : Nat) {s : StoreState}
    {b : Task} (hf : findTask j s.tasks = some b) :
    mkRecord (.update j p now) s = some (.update (applyPatch b p now) b) := by
  show (match findTask j s.tasks with
    | none => none
    | some prev => some (UndoAction.update (applyPatch prev p now) prev)) = _
  rw [hf]

lemma mkRecord_update_none {j : Nat} (p : Patch) (now : Nat) {s : StoreState}
    (hf : findTask j s.tasks = none) :
    mkRecord (.update j p now) s = none := by
  show (match findTask j s.tasks with
    | none => none
    | some prev => some (UndoAction.update (applyPatch prev p now) prev)) = _
  rw [hf]

/-- The record pushed by an effective delete. -/
lemma mkRecord_delete {j : Nat} {s : StoreState} {b : Task}
    (hf : findTask j s.tasks = some b) :
    mkRecord (.delete j) s = some (.delete b) := by
  show (match findTask j s.tasks with
    | none => none
    | some task => some (UndoAction.delete task)) = _
  rw [hf]

lemma mkRecord_delete_none {j : Nat} {s : StoreState}
    (hf : findTask j s.tasks = none) :
    mkRecord (.delete j) s = none := by
  show (match findTask j s.tasks with
    | none => none
    | some task => some (UndoAction.delete task)) = _
  rw [hf]

/-- Every mutation preserves the store invariant. -/
lemma inv_applyMutation (m : Mutation) {s : StoreState} (h : Inv s) :
    Inv (applyMutation m s) := by
  cases m with
  | create data now tz =>
    rw [applyMutation_create_eq]
    refine ⟨?_, ?_, List.length_take_le _ _⟩
    · show ((s.tasks ++ [buildTask data now tz s]).map Task.id).Nodup
      rw [List.map_append]
      rw [List.nodup_append]
      refine ⟨h.1, List.nodup_singleton _, ?_⟩
      intro i hi hi2
      have hlt := h.2.1 i hi
      have hin : i = s.nextId := by simpa using hi2
      omega
    · intro i hi
      show i < s.nextId + 1
      have hi2 : i ∈ (s.tasks ++ [buildTask data now tz s]).map Task.id := hi
      rw [List.map_append] at hi2
      rcases List.mem_append.mp hi2 with h1 | h1
      · have := h.2.1 i h1
        omega
      · have hin : i = s.nextId := by simpa using h1
        omega
  | update j p now =>
    rcases hf : findTask j s.tasks with _ | b
    · rw [applyMutation_update_none j p now s hf]
      exact h
    · rw [applyMutation_update_eq j p now s b hf]
      refine ⟨?_, ?_, List.length_take_le _ _⟩
      · show ((replaceTask (applyPatch b p now) s.tasks).map Task.id).Nodup
        rw [map_id_replaceTask]
        exact h.1
      · intro i hi
        have hi2 : i ∈ (replaceTask (applyPatch b p now) s.tasks).map Task.id := hi
        rw [map_id_replaceTask] at hi2
        exact h.2.1 i hi2
  | delete j =>
    rcases hf : findTask j s.tasks with _ | b
    · rw [applyMutation_delete_none j s hf]
      exact h
    · rw [applyMutation_delete_eq j s b hf]
      refine ⟨?_, ?_, List.length_take_le _ _⟩
      · show (((s.tasks.filter fun t => !(t.id = j : Bool)).map Task.id)).Nodup
        exact h.1.sublist ((List.filter_sublist s.tasks).map Task.id)
      · intro i hi
        have hi2 : i ∈ (s.tasks.filter fun t => !(t.id = j : Bool)).map Task.id := hi
        obtain ⟨t, ht, rfl⟩ := List.mem_map.mp hi2
        exact h.2.1 t.id (List.mem_map_of_mem Task.id (List.mem_of_mem_filter ht))

/-- Effective mutations come with their pushed record. -/
lemma mkRecord_isSome_of_eff {s : StoreState} {m : Mutation}
    (h : effOneB s m = true) : ∃ r, mkRecord m s = some r := by
  cases m with
  | create data now tz => exact ⟨_, rfl⟩
  | update j p now =>
    have h2 : (findTask j s.tasks).isSome = true := h
    rcases hf : findTask j s.tasks with _ | b
    · rw [hf] at h2
      simp at h2
    · exact ⟨_, mkRecord_update p now hf⟩
  | delete j =>
    have h2 : (findTask j s.tasks).isSome = true := h
    rcases hf : findTask j s.tasks with _ | b
    · rw [hf] at h2
      simp at h2
    · exact ⟨_, mkRecord_delete hf⟩

/-- An effective mutation pushes exactly its record onto the capped stack. -/
lemma applyMutation_stack {m : Mutation} {s : StoreState} {r : UndoAction}
    (hr : mkRecord m s = some r) :
    (applyMutation m s).undoStack = r :: s.undoStack.take 49 := by
  have h50 : MAX_UNDO_STACK = 49 + 1 := rfl
  cases m with
  | create data now tz =>
    rw [mkRecord_create] at hr
    obtain rfl : UndoAction.create (buildTask data now tz s) = r := by
      injection hr
    rw [applyMutation_create_eq]
    show addToUndoStack _ s.undoStack = _
    unfold addToUndoStack
    rw [h50, List.take_succ_cons]
  | update j p now =>
    rcases hf : findTask j s.tasks with _ | b
    · rw [mkRecord_update_none p now hf] at hr
      exact absurd hr (by simp)
    · rw [mkRecord_update p now hf] at hr
      obtain rfl : UndoAction.update (applyPatch b p now) b = r := by injection hr
      rw [applyMutation_update_eq j p now s b hf]
      show addToUndoStack _ s.undoStack = _
      unfold addToUndoStack
      rw [h50, List.take_succ_cons]
  | delete j =>
    rcases hf : findTask j s.tasks with _ | b
    · rw [mkRecord_delete_none hf] at hr
      exact absurd hr (by simp)
    · rw [mkRecord_delete hf] at hr
      obtain rfl : UndoAction.delete b = r := by injection hr
      rw [applyMutation_delete_eq j s b hf]
      show addToUndoStack _ s.undoStack = _
      unfold addToUndoStack
      rw [h50, List.take_succ_cons]

/-- undo on a non-empty stack pops the head and replays it. -/
lemma undo_cons {s : StoreState} {r : UndoAction} {rest : List UndoAction}
    (h : s.undoStack = r :: rest) :
    undo s = { tasks := undoReplayTasks r s.tasks
               undoStack := rest
               nextId := s.nextId
               storage := undoReplayStorage r s.storage } := by
  unfold undo
  rw [h]

/-- Replaying the record of an effective mutation against any permutation of
the post-state collection recovers the pre-state collection (up to
permutation). -/
lemma undoReplay_inverts {m : Mutation} {s : StoreState} {r : UndoAction}
    (hinv : Inv s) (hr : mkRecord m s = some r) {T : List Task}
    (hT : List.Perm T (applyMutation m s).tasks) :
    List.Perm (undoReplayTasks r T) s.tasks := by
  cases m with
  | create data now tz =>
    rw [mkRecord_create] at hr
    obtain rfl : UndoAction.create (buildTask data now tz s) = r := by injection hr
    have htasks : (applyMutation (.create data now tz) s).tasks =
        s.tasks ++ [buildTask data now tz s] := rfl
    rw [htasks] at hT
    show List.Perm
      (T.filter fun t => !(t.id = (buildTask data now tz s).id : Bool)) s.tasks
    have h1 := hT.filter fun t => !(t.id = (buildTask data now tz s).id : Bool)
    rw [List.filter_append] at h1
    have h2 : ([buildTask data now tz s].filter
        fun t => !(t.id = (buildTask data now tz s).id : Bool)) = [] := by simp
    have h3 : (s.tasks.filter
        fun t => !(t.id = (buildTask data now tz s).id : Bool)) = s.tasks := by
      apply filter_ne_eq_self
      intro t ht
      have hlt := hinv.2.1 t.id (List.mem_map_of_mem Task.id ht)
      show t.id ≠ s.nextId
      omega
    rw [h2, h3, List.append_nil] at h1
    exact h1
  | update j p now =>
    rcases hf : findTask j s.tasks with _ | b
    · rw [mkRecord_update_none p now hf] at hr
      exact absurd hr (by simp)
    · rw [mkRecord_update p now hf] at hr
      obtain rfl : UndoAction.update (applyPatch b p now) b = r := by injection hr
      have huid : (applyPatch b p now).id = b.id := rfl
      obtain ⟨hbid, hbmem⟩ := findTask_some hf
      have htasks : (applyMutation (.update j p now) s).tasks =
          replaceTask (applyPatch b p now) s.tasks := by
        rw [applyMutation_update_eq j p now s b hf]
      rw [htasks] at hT
      show List.Perm (replaceTask b T) s.tasks
      have hnodup_post : ((replaceTask (applyPatch b p now) s.tasks).map Task.id).Nodup := by
        rw [map_id_replaceTask]
        exact hinv.1
      have hnodupT : (T.map Task.id).Nodup := (hT.map Task.id).nodup_iff.mpr hnodup_post
      rw [replaceTask_eq_map hnodupT]
      have hmap := hT.map fun t => if t.id = b.id then b else t
      refine hmap.trans ?_
      rw [replaceTask_eq_map hinv.1, List.map_map]
      have hcongr : ∀ t ∈ s.tasks,
          ((fun t => if t.id = b.id then b else t) ∘
            (fun t => if t.id = (applyPatch b p now).id then applyPatch b p now else t)) t
          = t := by
        intro t ht
        by_cases h1 : t.id = b.id
        · have ht_eq : t = b := task_id_inj hinv.1 ht hbmem h1
        -- the inner map sends t to the patched task, the outer map sends the
        -- patched task (same id) back to b = t
          simp only [Function.comp, huid, if_pos h1, if_pos huid]
          exact ht_eq.symm
        · simp only [Function.comp, huid, if_neg h1]
      have hid_map : s.tasks.map
          ((fun t => if t.id = b.id then b else t) ∘
            (fun t => if t.id = (applyPatch b p now).id then applyPatch b p now else t))
          = s.tasks := by
        have := List.map_congr_left hcongr
        simpa using this
      rw [hid_map]
  | delete j =>
    rcases hf : findTask j s.tasks with _ | b
    · rw [mkRecord_delete_none hf] at hr
      exact absurd hr (by simp)
    · rw [mkRecord_delete hf] at hr
      obtain rfl : UndoAction.delete b = r := by injection hr
      obtain ⟨hbid, hbmem⟩ := findTask_some hf
      have htasks : (applyMutation (.delete j) s).tasks =
          s.tasks.filter fun t => !(t.id = j : Bool) := by
        rw [applyMutation_delete_eq j s b hf]
      rw [htasks] at hT
      show List.Perm (T ++ [b]) s.tasks
      refine (List.perm_append_singleton b T).trans ?_
      refine (hT.cons b).trans ?_
      exact (perm_cons_filter hinv.1 hf).symm

/-- Core undo induction: N effective mutations (N within the stack capacity)
followed by N undo() calls restore the in-memory collection up to permutation,
and consume exactly the N pushed records. -/
lemma c2_core (ms : List Mutation) : ∀ (s : StoreState), Inv s →
    ms.length ≤ MAX_UNDO_STACK → effectiveB s ms = true →
    List.Perm (undoN ms.length (applyAll ms s)).tasks s.tasks ∧
    (undoN ms.length (applyAll ms s)).undoStack =
      s.undoStack.take (MAX_UNDO_STACK - ms.length) := by
  induction ms with
  | nil =>
    intro s hinv hlen heff
    constructor
    · exact List.Perm.refl _
    · show s.undoStack = s.undoStack.take (MAX_UNDO_STACK - 0)
      rw [Nat.sub_zero]
      exact (List.take_of_length_le hinv.2.2).symm
  | cons m rest ih =>
    intro s hinv hlen heff
    have heffs : effOneB s m = true ∧ effectiveB (applyMutation m s) rest = true := by
      have h := heff
      simp only [effectiveB, Bool.and_eq_true] at h
      exact h
    obtain ⟨heff1, heffRest⟩ := heffs
    obtain ⟨r, hr⟩ := mkRecord_isSome_of_eff heff1
    have hinv1 : Inv (applyMutation m s) := inv_applyMutation m hinv
    have hl49 : rest.length + 1 ≤ MAX_UNDO_STACK := by simpa using hlen
    have hlenRest : rest.length ≤ MAX_UNDO_STACK := by omega
    have ihres := ih (applyMutation m s) hinv1 hlenRest heffRest
    have happ : applyAll (m :: rest) s = applyAll rest (applyMutation m s) := rfl
    have hstack1 : (applyMutation m s).undoStack = r :: s.undoStack.take 49 :=
      applyMutation_stack hr
    have hlen_n : (m :: rest).length = rest.length + 1 := rfl
    rw [hlen_n, happ]
    rw [show undoN (rest.length + 1) (applyAll rest (applyMutation m s)) =
        undo (undoN rest.length (applyAll rest (applyMutation m s))) from
      Function.iterate_succ_apply' undo rest.length _]
    set sMid := undoN rest.length (applyAll rest (applyMutation m s)) with hsMid
    have hMidStack : sMid.undoStack = r :: s.undoStack.take (49 - rest.length) :=
      calc sMid.undoStack
          = (applyMutation m s).undoStack.take (MAX_UNDO_STACK - rest.length) := ihres.2
        _ = (r :: s.undoStack.take 49).take (MAX_UNDO_STACK - rest.length) := by
            rw [hstack1]
        _ = r :: (s.undoStack.take 49).take (MAX_UNDO_STACK - rest.length - 1) := by
            have h1 : MAX_UNDO_STACK - rest.length =
                (MAX_UNDO_STACK - rest.length - 1) + 1 := by
              unfold MAX_UNDO_STACK at *
              omega
            conv_lhs => rw [h1]
            rw [List.take_succ_cons]
        _ = r :: s.undoStack.take (49 - rest.length) := by
            rw [List.take_take]
            have h2 : min (MAX_UNDO_STACK - rest.length - 1) 49 = 49 - rest.length := by
              unfold MAX_UNDO_STACK at hl49 ⊢
              omega
            rw [h2]
    have hundo := undo_cons hMidStack
    constructor
    · rw [hundo]
      show List.Perm (undoReplayTasks r sMid.tasks) s.tasks
      exact undoReplay_inverts hinv hr ihres.1
    · rw [hundo]
      show s.undoStack.take (49 - rest.length) =
        s.undoStack.take (MAX_UNDO_STACK - (rest.length + 1))
      have h3 : 49 - rest.length = MAX_UNDO_STACK - (rest.length + 1) := by
        unfold MAX_UNDO_STACK
        omega
      rw [h3]

/-- C2 (amended): for any sequence of at most 50 mutations, each update and
delete targeting an id present at its point of application, N mutations
followed by N undo() calls restore the in-memory collection as a multiset of
full task records — the same ids and order values are present, and updatedAt /
createdAt on restored tasks equal their pre-mutation values. -/
theorem c2_n_undos_invert_n_mutations (ms : List Mutation) (s : StoreState)
    (hinv : Inv s) (hlen : ms.length ≤ MAX_UNDO_STACK)
    (heff : effectiveB s ms = true) :
    List.Perm (undoN ms.length (applyAll ms s)).tasks s.tasks :=
  (c2_core ms s hinv hlen heff).1

/-- 51 consecutive creates. -/
def muts51 : List Mutation := List.replicate 51 (Mutation.create {} 0 "UTC")

/-- C2 counterexample: starting from the empty store, 51 creates followed by
51 undo() calls do NOT restore the pre-sequence collection — the oldest undo
record was evicted, so the first created task survives. -/
theorem c2_counterexample :
    muts51.length = 51 ∧
    emptyStore.tasks = [] ∧
    ¬ List.Perm (undoN muts51.length (applyAll muts51 emptyStore)).tasks
        emptyStore.tasks := by
  refine ⟨rfl, rfl, ?_⟩
  decide

/-- C2 witness: a delete followed by a create, then two undos, at a concrete
one-task store. -/
theorem c2_n_undos_invert_n_mutations_witness :
    List.Perm
      (undoN 2 (applyAll [Mutation.delete 0, Mutation.create {} 3 "UTC"] plainStore)).tasks
      plainStore.tasks :=
  c2_n_undos_invert_n_mutations [Mutation.delete 0, Mutation.create {} 3 "UTC"]
    plainStore (by decide) (by decide) (by decide)

/-- C4 witness: the partition facts at a concrete environment, with one
completed and one non-completed task. -/
theorem c4_classify_partition_witness :
    (∀ b, completedTask ∉ (groupTasksByUrgency boundaryEnv [boundaryTask]).bucket b) ∧
    (∃! b, boundaryTask ∈ (groupTasksByUrgency boundaryEnv [boundaryTask]).bucket b) := by
  have h := c4_classify_partition boundaryEnv [boundaryTask]
  exact ⟨h.1 completedTask rfl, h.2.1 boundaryTask (by decide) rfl⟩

/-- C10 witness: the create defaults at a concrete one-task store. -/
theorem c10_create_defaults_witness :
    ∃ t, (createTask true {} 4 "UTC" plainStore).1 = some t ∧
      t.completed = false ∧ t.completedAt = none ∧ t.pomodoroCount = 0 ∧
      t.order = maxOrder plainStore.tasks + 1 := by
  obtain ⟨t, h1, h2, h3, h4, h5, h6, h7, h8⟩ :=
    c10_create_defaults {} 4 "UTC" plainStore (by decide)
  exact ⟨t, h1, h4, h5, h6, h7⟩

end Planner
